import Mathlib

/-!
Verification of the HackerNews API client's recursive fetch-and-expand
algorithm (`async_fetch_urls` in `hackernews/client.py`), shallowly embedded
over an abstract fetcher.

The fetcher is modelled as a function `f : Url → Except Err (Option Item)`:
one network fetch either fails with a transport/timeout/parse error, or
returns the parsed JSON body — `none` for a `null`/absent body, `some item`
for a JSON object.  An `Item` records the two child-list fields the code
inspects (`kids` and `submitted`, each possibly missing) together with the
number of its remaining fields (which decides Python dict truthiness for the
`if item:` guard).
-/

namespace HN

/-- Error taxonomy of a single fetch (spec §7). -/
inductive Err where
  | timeoutError
  | transportError
  | parseError
deriving DecidableEq, Repr

/-- A fetch address.  `ITEM_URL.format(kid)` and `USER_URL.format(name)` are
string templates in the source; their results are modelled by the two
constructors, which keeps them injective and distinguishable. -/
inductive Url where
  | user (name : String)
  | item (id : Nat)
deriving DecidableEq, Repr

/-- `ITEM_URL.format(kid)` — the address of one item. -/
def ITEM_URL (kid : Nat) : Url := Url.item kid

/-- `USER_URL.format(name)` — the address of one user profile. -/
def USER_URL (name : String) : Url := Url.user name

/-- A parsed JSON object: the two optional child-list fields the code reads,
plus the number of its other fields (`others`), which only matters for the
Python truthiness test `if item:` (a dict is truthy iff it is non-empty). -/
structure Item where
  kids : Option (List Nat)
  submitted : Option (List Nat)
  others : Nat
deriving DecidableEq, Repr

/-- Python truthiness of the dict behind an `Item`: non-empty iff it has at
least one key. -/
def Item.truthy (it : Item) : Bool :=
  it.kids.isSome || it.submitted.isSome || decide (0 < it.others)

/-- Python `a or b` where `a` is `item.get(field)` (either `None` or a list):
yields `a` when `a` is a non-empty list, else `b`. -/
def pyOrList (a : Option (List Nat)) (b : List Nat) : List Nat :=
  match a with
  | none => b
  | some l => if l.isEmpty then b else l

/-- `item.get('kids') or item.get('submitted') or []` (client.py line 42). -/
def Item.childIds (it : Item) : List Nat :=
  pyOrList it.kids (pyOrList it.submitted [])

/-- The child urls one fetch result contributes (client.py lines 40–43):
nothing if the result is absent (`None`) or a falsy (empty) dict, otherwise
`[ITEM_URL.format(kid) for kid in kids]`. -/
def childUrls : Option Item → List Url
  | none => []
  | some it => if it.truthy then it.childIds.map ITEM_URL else []

/-- `await asyncio.gather(*tasks)` (client.py lines 35–37): results in task
order; if a task raised, the whole gather raises that error. -/
def gather (f : Url → Except Err (Option Item)) : List Url → Except Err (List (Option Item))
  | [] => Except.ok []
  | u :: us =>
    match f u with
    | Except.error e => Except.error e
    | Except.ok it =>
      match gather f us with
      | Except.error e => Except.error e
      | Except.ok items => Except.ok (it :: items)

mutual

/-- `async_fetch_urls(urls, session, recursive)` (client.py lines 24–53):
gather all fetches of this level; if `recursive > 0`, loop over the items in
order, and for each item with a non-empty child-url list recurse with
`recursive - 1`, accumulating the recursive results into `new_items`; return
`items ++ new_items`. -/
def async_fetch_urls (f : Url → Except Err (Option Item)) (recursive : Int)
    (urls : List Url) : Except Err (List (Option Item)) :=
  match gather f urls with
  | Except.error e => Except.error e
  | Except.ok items =>
    if _h : 0 < recursive then
      match newItemsLoop f (recursive - 1) items with
      | Except.error e => Except.error e
      | Except.ok newItems => Except.ok (items ++ newItems)
    else
      Except.ok items
termination_by (recursive.toNat, 0)

/-- The `for i, item in enumerate(items)` loop of client.py lines 39–51:
each item contributes the recursive expansion of its child urls (nothing when
that list is empty), appended in item order. -/
def newItemsLoop (f : Url → Except Err (Option Item)) (recursive : Int)
    (items : List (Option Item)) : Except Err (List (Option Item)) :=
  match items with
  | [] => Except.ok []
  | item :: rest =>
    match (if (childUrls item).isEmpty then Except.ok []
           else async_fetch_urls f recursive (childUrls item)) with
    | Except.error e => Except.error e
    | Except.ok sub =>
      match newItemsLoop f recursive rest with
      | Except.error e => Except.error e
      | Except.ok tail => Except.ok (sub ++ tail)
termination_by (recursive.toNat, items.length + 1)

end

/-- `get_user_items(username, recursive)` (client.py lines 74–85): expand the
one-element url list `[USER_URL.format(username)]`. -/
def get_user_items (f : Url → Except Err (Option Item)) (username : String)
    (recursive : Int) : Except Err (List (Option Item)) :=
  async_fetch_urls f recursive [USER_URL username]

/-- One loop iteration's contribution for one item: the recursive expansion of
its child urls, or nothing when that url list is empty. -/
def subExpand (f : Url → Except Err (Option Item)) (recursive : Int)
    (item : Option Item) : Except Err (List (Option Item)) :=
  if (childUrls item).isEmpty then Except.ok []
  else async_fetch_urls f recursive (childUrls item)

mutual

/-- The urls an error-free run of `async_fetch_urls` fetches, computed over a
pure item oracle `g` (no fetch errors): this level's urls followed by the
urls fetched while expanding each item's children, in the order the code
reaches them. -/
def fetchedUrls (g : Url → Option Item) (recursive : Int) (urls : List Url) :
    List Url :=
  urls ++ (if _h : 0 < recursive then
    fetchedChildrenUrls g (recursive - 1) (urls.map g) else [])
termination_by (recursive.toNat, 0)

/-- The urls fetched while the loop of client.py lines 39–51 expands each
item's children, over a pure item oracle. -/
def fetchedChildrenUrls (g : Url → Option Item) (recursive : Int)
    (items : List (Option Item)) : List Url :=
  match items with
  | [] => []
  | item :: rest =>
    (if (childUrls item).isEmpty then []
     else fetchedUrls g recursive (childUrls item)) ++
      fetchedChildrenUrls g recursive rest
termination_by (recursive.toNat, items.length + 1)

end

/-- The spec's child-extraction rule, stated in its own words: the first
non-empty of the two child-list fields — kids preferred over submitted — or
empty if neither is present or both are empty. -/
def specChildIds (it : Item) : List Nat :=
  match it.kids with
  | some (k :: ks) => k :: ks
  | _ =>
    match it.submitted with
    | some (s :: ss) => s :: ss
    | _ => []

/-- A small concrete item store used to exercise the algorithm: item 1 has
child 3, item 2 has child 4, item 3 has child 5, items 4/5/7 are leaves,
item 6 has an empty kids list but submitted [7], item 8 is an empty dict,
every other url is absent. -/
def demoG : Url → Option Item
  | Url.item 1 => some ⟨some [3], none, 1⟩
  | Url.item 2 => some ⟨some [4], none, 1⟩
  | Url.item 3 => some ⟨some [5], none, 1⟩
  | Url.item 4 => some ⟨none, none, 4⟩
  | Url.item 5 => some ⟨none, none, 5⟩
  | Url.item 6 => some ⟨some [], some [7], 1⟩
  | Url.item 7 => some ⟨none, none, 7⟩
  | Url.item 8 => some ⟨none, none, 0⟩
  | _ => none

/-- A fetcher over `demoG` that never fails. -/
def demoFetch : Url → Except Err (Option Item) :=
  fun u => Except.ok (demoG u)

/-- A fetcher over `demoG` whose only failure is a transport error on
item 5 (a depth-2 leaf of the demo tree). -/
def demoFailFetch : Url → Except Err (Option Item) :=
  fun v => if v = Url.item 5 then Except.error Err.transportError
           else Except.ok (demoG v)

/-! ### Basic lemmas about `gather` -/

theorem gather_ok_forall2 {f : Url → Except Err (Option Item)} :
    ∀ {urls : List Url} {items : List (Option Item)},
      gather f urls = Except.ok items ↔
        List.Forall₂ (fun u it => f u = Except.ok it) urls items := by
  intro urls
  induction urls with
  | nil =>
    intro items
    simp only [gather]
    constructor
    · rintro h
      cases h
      exact List.Forall₂.nil
    · rintro h
      cases h
      rfl
  | cons u us ih =>
    intro items
    simp only [gather]
    constructor
    · intro h
      cases hu : f u with
      | error e => rw [hu] at h; exact absurd h (by simp)
      | ok it =>
        rw [hu] at h
        cases hus : gather f us with
        | error e => rw [hus] at h; exact absurd h (by simp)
        | ok tl =>
          rw [hus] at h
          cases h
          exact List.Forall₂.cons hu (ih.mp hus)
    · intro h
      cases h with
      | cons hu hus =>
        rw [hu, ih.mpr hus]

theorem gather_ok_length {f : Url → Except Err (Option Item)} {urls items}
    (h : gather f urls = Except.ok items) : items.length = urls.length :=
  (gather_ok_forall2.mp h).length_eq.symm

theorem gather_ok_get {f : Url → Except Err (Option Item)} {urls items}
    (h : gather f urls = Except.ok items) {i : Nat} (h1 : i < urls.length)
    (h2 : i < items.length) :
    f (urls.get ⟨i, h1⟩) = Except.ok (items.get ⟨i, h2⟩) :=
  (gather_ok_forall2.mp h).get h1 h2

/-- When `f` succeeds everywhere on `urls` with payload `g`, `gather` returns
the mapped list. -/
theorem gather_map {f : Url → Except Err (Option Item)} {g : Url → Option Item}
    {urls : List Url} (h : ∀ u ∈ urls, f u = Except.ok (g u)) :
    gather f urls = Except.ok (urls.map g) := by
  induction urls with
  | nil => rfl
  | cons u us ih =>
    simp only [gather, h u (List.mem_cons_self u us),
      ih fun v hv => h v (List.mem_cons_of_mem u hv), List.map]

/-- If some url in the list fails and it is the only url `f` fails on, the
whole `gather` fails with that error. -/
theorem gather_error_of_mem {f : Url → Except Err (Option Item)}
    {g : Url → Option Item} {u : Url} {e : Err}
    (hf : ∀ v, f v = if v = u then Except.error e else Except.ok (g v))
    {urls : List Url} (hu : u ∈ urls) : gather f urls = Except.error e := by
  induction urls with
  | nil => cases hu
  | cons v vs ih =>
    by_cases hv : v = u
    · subst hv
      simp [gather, hf v]
    · rcases List.mem_cons.mp hu with h | h
      · exact absurd h.symm hv
      · simp only [gather, hf v, if_neg hv, ih h]

/-! ### Unfolding lemmas for `async_fetch_urls` and `newItemsLoop` -/

theorem async_fetch_urls_gather_error {f : Url → Except Err (Option Item)}
    {b : Int} {urls : List Url} {e : Err} (hg : gather f urls = Except.error e) :
    async_fetch_urls f b urls = Except.error e := by
  unfold async_fetch_urls
  rw [hg]

theorem async_fetch_urls_nonpos {f : Url → Except Err (Option Item)}
    {b : Int} {urls : List Url} (hb : ¬ 0 < b) :
    async_fetch_urls f b urls = gather f urls := by
  unfold async_fetch_urls
  cases hg : gather f urls with
  | error e => rfl
  | ok items => simp [hb]

theorem async_fetch_urls_pos_ok {f : Url → Except Err (Option Item)}
    {b : Int} {urls : List Url} {items : List (Option Item)} (hb : 0 < b)
    (hg : gather f urls = Except.ok items) :
    async_fetch_urls f b urls =
      match newItemsLoop f (b - 1) items with
      | Except.error e => Except.error e
      | Except.ok newItems => Except.ok (items ++ newItems) := by
  unfold async_fetch_urls
  rw [hg]
  simp [hb]

theorem newItemsLoop_nil {f : Url → Except Err (Option Item)} {b : Int} :
    newItemsLoop f b [] = Except.ok [] := by
  unfold newItemsLoop
  rfl

theorem newItemsLoop_cons {f : Url → Except Err (Option Item)} {b : Int}
    {item : Option Item} {rest : List (Option Item)} :
    newItemsLoop f b (item :: rest) =
      match subExpand f b item with
      | Except.error e => Except.error e
      | Except.ok sub =>
        match newItemsLoop f b rest with
        | Except.error e => Except.error e
        | Except.ok tail => Except.ok (sub ++ tail) := by
  conv =>
    lhs
    unfold newItemsLoop
  rfl

/-- The loop succeeds exactly when every item's own recursive expansion
succeeds, and then the accumulated `new_items` is the concatenation, in item
order, of the per-item expansions. -/
theorem newItemsLoop_ok_iff {f : Url → Except Err (Option Item)} {b : Int} :
    ∀ {items : List (Option Item)} {out : List (Option Item)},
      newItemsLoop f b items = Except.ok out ↔
        ∃ subs, List.Forall₂ (fun it sub => subExpand f b it = Except.ok sub)
          items subs ∧ out = subs.flatten := by
  intro items
  induction items with
  | nil =>
    intro out
    rw [newItemsLoop_nil]
    constructor
    · rintro h
      cases h
      exact ⟨[], List.Forall₂.nil, rfl⟩
    · rintro ⟨subs, hsubs, rfl⟩
      cases hsubs
      rfl
  | cons item rest ih =>
    intro out
    rw [newItemsLoop_cons]
    constructor
    · intro h
      cases hsub : subExpand f b item with
      | error e => rw [hsub] at h; exact absurd h (by simp)
      | ok sub =>
        rw [hsub] at h
        cases hrest : newItemsLoop f b rest with
        | error e => rw [hrest] at h; exact absurd h (by simp)
        | ok tail =>
          rw [hrest] at h
          cases h
          rcases ih.mp hrest with ⟨subs, hsubs, rfl⟩
          exact ⟨sub :: subs, List.Forall₂.cons hsub hsubs, by simp⟩
    · rintro ⟨subs, hsubs, rfl⟩
      cases hsubs with
      | cons hsub hsubs2 =>
        rw [hsub, ih.mpr ⟨_, hsubs2, rfl⟩]
        simp

/-- When no item of the batch contributes children, the loop accumulates
nothing. -/
theorem newItemsLoop_no_children {f : Url → Except Err (Option Item)} {b : Int}
    {items : List (Option Item)} (h : ∀ it ∈ items, childUrls it = []) :
    newItemsLoop f b items = Except.ok [] := by
  induction items with
  | nil => exact newItemsLoop_nil
  | cons item rest ih =>
    rw [newItemsLoop_cons]
    have hitem : childUrls item = [] := h item (List.mem_cons_self item rest)
    have hrest := ih fun it hit => h it (List.mem_cons_of_mem item hit)
    simp only [subExpand, hitem, List.isEmpty_nil, if_true, hrest]
    rfl

/-- A successful expansion splits into the gathered batch of this level
followed by the accumulated recursive results. -/
theorem async_fetch_urls_ok_split {f : Url → Except Err (Option Item)}
    {b : Int} {urls : List Url} {out : List (Option Item)}
    (h : async_fetch_urls f b urls = Except.ok out) :
    ∃ items newItems, gather f urls = Except.ok items ∧ out = items ++ newItems := by
  by_cases hb : 0 < b
  · cases hg : gather f urls with
    | error e =>
      rw [async_fetch_urls_gather_error hg] at h
      exact absurd h (by simp)
    | ok items =>
      rw [async_fetch_urls_pos_ok hb hg] at h
      cases hl : newItemsLoop f (b - 1) items with
      | error e => rw [hl] at h; exact absurd h (by simp)
      | ok newItems =>
        rw [hl] at h
        cases h
        exact ⟨items, newItems, rfl, rfl⟩
  · rw [async_fetch_urls_nonpos hb] at h
    exact ⟨out, [], h, (List.append_nil _).symm⟩

/-! ### Unfolding lemmas for `fetchedUrls` -/

theorem fetchedUrls_nonpos {g : Url → Option Item} {b : Int} {urls : List Url}
    (hb : ¬ 0 < b) : fetchedUrls g b urls = urls := by
  unfold fetchedUrls
  simp [hb]

theorem fetchedUrls_pos {g : Url → Option Item} {b : Int} {urls : List Url}
    (hb : 0 < b) :
    fetchedUrls g b urls =
      urls ++ fetchedChildrenUrls g (b - 1) (urls.map g) := by
  unfold fetchedUrls
  simp [hb]

theorem fetchedChildrenUrls_nil {g : Url → Option Item} {b : Int} :
    fetchedChildrenUrls g b [] = [] := by
  unfold fetchedChildrenUrls
  rfl

theorem fetchedChildrenUrls_cons {g : Url → Option Item} {b : Int}
    {item : Option Item} {rest : List (Option Item)} :
    fetchedChildrenUrls g b (item :: rest) =
      (if (childUrls item).isEmpty then []
       else fetchedUrls g b (childUrls item)) ++
        fetchedChildrenUrls g b rest := by
  conv =>
    lhs
    unfold fetchedChildrenUrls

/-! ### With a single failing url, the only error any run can produce is
that url's error -/

theorem gather_error_unique {f : Url → Except Err (Option Item)}
    {g : Url → Option Item} {u : Url} {e : Err}
    (hf : ∀ v, f v = if v = u then Except.error e else Except.ok (g v)) :
    ∀ {urls : List Url} {e2 : Err}, gather f urls = Except.error e2 → e2 = e := by
  intro urls
  induction urls with
  | nil => intro e2 h; exact absurd h (by simp [gather])
  | cons v vs ih =>
    intro e2 h
    by_cases hv : v = u
    · subst hv
      simp only [gather, hf v, if_pos rfl] at h
      cases h
      rfl
    · simp only [gather, hf v, if_neg hv] at h
      cases hvs : gather f vs with
      | error e3 =>
        rw [hvs] at h
        cases h
        exact ih hvs
      | ok items => rw [hvs] at h; exact absurd h (by simp)

theorem async_fetch_urls_error_unique {f : Url → Except Err (Option Item)}
    {g : Url → Option Item} {u : Url} {e : Err}
    (hf : ∀ v, f v = if v = u then Except.error e else Except.ok (g v)) :
    ∀ {b : Int} {urls : List Url} {e2 : Err},
      async_fetch_urls f b urls = Except.error e2 → e2 = e := by
  have main :
      ∀ (b : Int) (urls : List Url),
        ∀ e2, async_fetch_urls f b urls = Except.error e2 → e2 = e := by
    refine async_fetch_urls.induct f
      (fun b urls => ∀ e2, async_fetch_urls f b urls = Except.error e2 → e2 = e)
      (fun b items => ∀ e2, newItemsLoop f b items = Except.error e2 → e2 = e)
      ?_ ?_ ?_ ?_ ?_ ?_ ?_ ?_
    · intro b urls eg hg e2 h
      rw [async_fetch_urls_gather_error hg] at h
      cases h
      exact gather_error_unique hf hg
    · intro b urls items hg hb el hl ih e2 h
      have hexp : async_fetch_urls f b urls = Except.error el := by
        rw [async_fetch_urls_pos_ok hb hg, hl]
      rw [hexp] at h
      cases h
      exact ih el hl
    · intro b urls items hg hb newItems hl ih e2 h
      have hexp : async_fetch_urls f b urls = Except.ok (items ++ newItems) := by
        rw [async_fetch_urls_pos_ok hb hg, hl]
      rw [hexp] at h
      exact absurd h (by simp)
    · intro b urls items hg hb e2 h
      rw [async_fetch_urls_nonpos hb, hg] at h
      exact absurd h (by simp)
    · intro b e2 h
      rw [newItemsLoop_nil] at h
      exact absurd h (by simp)
    · intro b item rest el hsub ih e2 h
      by_cases hx : (childUrls item).isEmpty = true
      · rw [dif_pos hx] at hsub
        exact absurd hsub (by simp)
      · rw [dif_neg hx] at hsub
        have hsubE : subExpand f b item = Except.error el := by
          rw [subExpand, if_neg hx]
          exact hsub
        have hexp : newItemsLoop f b (item :: rest) = Except.error el := by
          rw [newItemsLoop_cons, hsubE]
        rw [hexp] at h
        cases h
        exact ih el hsub
    · intro b item rest sub hsub el hl ih1 ih2 e2 h
      have hsubE : subExpand f b item = Except.ok sub := hsub
      have hexp : newItemsLoop f b (item :: rest) = Except.error el := by
        rw [newItemsLoop_cons, hsubE, hl]
      rw [hexp] at h
      cases h
      exact ih2 el hl
    · intro b item rest sub hsub tail hl ih1 ih2 e2 h
      have hsubE : subExpand f b item = Except.ok sub := hsub
      have hexp : newItemsLoop f b (item :: rest) = Except.ok (sub ++ tail) := by
        rw [newItemsLoop_cons, hsubE, hl]
      rw [hexp] at h
      exact absurd h (by simp)
  intro b urls e2 h
  exact main b urls e2 h

/-! ### Claim theorems -/

/-- Claim C4: `expand(ids, 0)` returns exactly the fetch results of the input
identifiers, in input order and of the same length, and performs no recursive
expansion — the result is precisely the gathered batch of this level, and the
fetched-url tree at budget 0 is the input url list itself. -/
theorem claim_C4 {f : Url → Except Err (Option Item)} {urls : List Url}
    {items : List (Option Item)} (h : gather f urls = Except.ok items) :
    async_fetch_urls f 0 urls = Except.ok items ∧
      items.length = urls.length ∧
      (∀ i (h1 : i < urls.length) (h2 : i < items.length),
        f (urls.get ⟨i, h1⟩) = Except.ok (items.get ⟨i, h2⟩)) ∧
      ∀ g : Url → Option Item, fetchedUrls g 0 urls = urls := by
  refine ⟨?_, gather_ok_length h, fun i h1 h2 => gather_ok_get h h1 h2,
    fun g => fetchedUrls_nonpos (by norm_num)⟩
  rw [async_fetch_urls_nonpos (by norm_num), h]

/-- Witness for claim C4 at a concrete two-url input (one present item, one
absent). -/
theorem claim_C4_witness :
    gather demoFetch [Url.item 1, Url.item 9] =
        Except.ok [some ⟨some [3], none, 1⟩, none] ∧
      (async_fetch_urls demoFetch 0 [Url.item 1, Url.item 9] =
          Except.ok [some ⟨some [3], none, 1⟩, none] ∧
        ([some ⟨some [3], none, 1⟩, none] : List (Option Item)).length =
          [Url.item 1, Url.item 9].length ∧
        (∀ i (h1 : i < [Url.item 1, Url.item 9].length)
          (h2 : i < ([some ⟨some [3], none, 1⟩, none] :
            List (Option Item)).length),
          demoFetch ([Url.item 1, Url.item 9].get ⟨i, h1⟩) =
            Except.ok (([some ⟨some [3], none, 1⟩, none] :
              List (Option Item)).get ⟨i, h2⟩)) ∧
        ∀ g : Url → Option Item,
          fetchedUrls g 0 [Url.item 1, Url.item 9] =
            [Url.item 1, Url.item 9]) :=
  ⟨rfl, claim_C4 rfl⟩

/-- Claim C9: a negative budget behaves exactly like budget 0 — the batch of
this level is returned, no children are expanded, no error is raised. -/
theorem claim_C9 {f : Url → Except Err (Option Item)} {urls : List Url}
    {b : Int} (hb : b < 0) :
    async_fetch_urls f b urls = async_fetch_urls f 0 urls := by
  rw [async_fetch_urls_nonpos (by omega), async_fetch_urls_nonpos (by norm_num)]

/-- Witness for claim C9 at budget `-1`. -/
theorem claim_C9_witness :
    (-1 : Int) < 0 ∧
      async_fetch_urls demoFetch (-1) [Url.item 1] =
        async_fetch_urls demoFetch 0 [Url.item 1] :=
  ⟨by norm_num, claim_C9 (by norm_num)⟩

/-- Claim C5: with a positive budget, if every fetched item of the batch is
absent or contributes no child urls, the expansion returns exactly the batch,
with nothing appended. -/
theorem claim_C5 {f : Url → Except Err (Option Item)} {b : Int}
    {urls : List Url} {items : List (Option Item)} (hb : 0 < b)
    (hg : gather f urls = Except.ok items)
    (hnc : ∀ it ∈ items, childUrls it = []) :
    async_fetch_urls f b urls = Except.ok items := by
  rw [async_fetch_urls_pos_ok hb hg, newItemsLoop_no_children hnc]
  simp

/-- Witness for claim C5: a childless leaf plus an absent url, budget 3. -/
theorem claim_C5_witness :
    (0 : Int) < 3 ∧
      gather demoFetch [Url.item 4, Url.item 9] =
        Except.ok [some ⟨none, none, 4⟩, none] ∧
      (∀ it ∈ ([some ⟨none, none, 4⟩, none] : List (Option Item)),
        childUrls it = []) ∧
      async_fetch_urls demoFetch 3 [Url.item 4, Url.item 9] =
        Except.ok [some ⟨none, none, 4⟩, none] :=
  ⟨by norm_num, rfl, by decide, claim_C5 (by norm_num) rfl (by decide)⟩

/-- Claim C8: whatever the budget, a successful expansion starts with exactly
the fetch results of the input urls, in input order (the output's prefix of
length `urls.length` is the gathered batch), so the output is never shorter
than the input. -/
theorem claim_C8 {f : Url → Except Err (Option Item)} {b : Int}
    {urls : List Url} {out : List (Option Item)}
    (h : async_fetch_urls f b urls = Except.ok out) :
    urls.length ≤ out.length ∧
      gather f urls = Except.ok (out.take urls.length) ∧
      ∀ i (h1 : i < urls.length) (h2 : i < out.length),
        f (urls.get ⟨i, h1⟩) = Except.ok (out.get ⟨i, h2⟩) := by
  obtain ⟨items, newItems, hg, rfl⟩ := async_fetch_urls_ok_split h
  have hlen : items.length = urls.length := gather_ok_length hg
  have htake : (items ++ newItems).take urls.length = items := by
    rw [← hlen]
    exact List.take_left items newItems
  refine ⟨?_, ?_, ?_⟩
  · rw [List.length_append]
    omega
  · rw [htake]
    exact hg
  · intro i h1 h2
    have h3 : i < items.length := by omega
    have hget : (items ++ newItems).get ⟨i, h2⟩ = items.get ⟨i, h3⟩ := by
      rw [List.get_eq_getElem, List.get_eq_getElem, List.getElem_append_left]
    rw [hget]
    exact gather_ok_get hg h1 h3

/-- Witness for claim C8 at the depth-2 demo expansion. -/
theorem claim_C8_witness :
    async_fetch_urls demoFetch 2 [Url.item 1, Url.item 2] =
        Except.ok [some ⟨some [3], none, 1⟩, some ⟨some [4], none, 1⟩,
          some ⟨some [5], none, 1⟩, some ⟨none, none, 5⟩,
          some ⟨none, none, 4⟩] ∧
      ([Url.item 1, Url.item 2] : List Url).length ≤
        ([some ⟨some [3], none, 1⟩, some ⟨some [4], none, 1⟩,
          some ⟨some [5], none, 1⟩, some ⟨none, none, 5⟩,
          some ⟨none, none, 4⟩] : List (Option Item)).length ∧
      gather demoFetch [Url.item 1, Url.item 2] =
        Except.ok (([some ⟨some [3], none, 1⟩, some ⟨some [4], none, 1⟩,
          some ⟨some [5], none, 1⟩, some ⟨none, none, 5⟩,
          some ⟨none, none, 4⟩] : List (Option Item)).take
            ([Url.item 1, Url.item 2] : List Url).length) :=
  ⟨by simp [async_fetch_urls, newItemsLoop, gather, demoFetch, demoG, childUrls,
      Item.truthy, Item.childIds, pyOrList, ITEM_URL, subExpand],
   by
    have h := @claim_C8 demoFetch 2 [Url.item 1, Url.item 2]
      [some ⟨some [3], none, 1⟩, some ⟨some [4], none, 1⟩,
        some ⟨some [5], none, 1⟩, some ⟨none, none, 5⟩, some ⟨none, none, 4⟩]
      (by simp [async_fetch_urls, newItemsLoop, gather, demoFetch, demoG,
        childUrls, Item.truthy, Item.childIds, pyOrList, ITEM_URL, subExpand])
    exact ⟨h.1, h.2.1⟩⟩

/-- Claim C6: an identifier whose fetch returns absent keeps its (absent)
entry at its own position of the batch, contributes no child urls, and the
expansion still succeeds — absence is a result, not an error. -/
theorem claim_C6 {f : Url → Except Err (Option Item)} {b : Int}
    {urls : List Url} {out : List (Option Item)} {i : Nat}
    (h1 : i < urls.length) (hx : f (urls.get ⟨i, h1⟩) = Except.ok none)
    (h : async_fetch_urls f b urls = Except.ok out) :
    ∃ h2 : i < out.length,
      out.get ⟨i, h2⟩ = none ∧ childUrls (out.get ⟨i, h2⟩) = [] := by
  obtain ⟨items, newItems, hg, rfl⟩ := async_fetch_urls_ok_split h
  have hlen : items.length = urls.length := gather_ok_length hg
  have h3 : i < items.length := by omega
  have h2 : i < (items ++ newItems).length := by
    rw [List.length_append]
    omega
  have hgot := gather_ok_get hg h1 h3
  rw [hx] at hgot
  injection hgot with hnone
  have hget : (items ++ newItems).get ⟨i, h2⟩ = items.get ⟨i, h3⟩ := by
    rw [List.get_eq_getElem, List.get_eq_getElem, List.getElem_append_left]
  refine ⟨h2, ?_, ?_⟩
  · rw [hget, ← hnone]
  · rw [hget, ← hnone]
    rfl

/-- Witness for claim C6: url 9 is absent in the demo store. -/
theorem claim_C6_witness :
    demoFetch (([Url.item 1, Url.item 9] : List Url).get ⟨1, by norm_num⟩) =
        Except.ok none ∧
      ∃ h2 : 1 < ([some ⟨some [3], none, 1⟩, none, some ⟨some [5], none, 1⟩] :
          List (Option Item)).length,
        ([some ⟨some [3], none, 1⟩, none, some ⟨some [5], none, 1⟩] :
          List (Option Item)).get ⟨1, h2⟩ = none ∧
        childUrls (([some ⟨some [3], none, 1⟩, none,
          some ⟨some [5], none, 1⟩] : List (Option Item)).get ⟨1, h2⟩) = [] :=
  ⟨rfl, @claim_C6 demoFetch 1 [Url.item 1, Url.item 9]
    [some ⟨some [3], none, 1⟩, none, some ⟨some [5], none, 1⟩] 1
    (by norm_num) rfl
    (by simp [async_fetch_urls, newItemsLoop, gather, demoFetch, demoG,
      childUrls, Item.truthy, Item.childIds, pyOrList, ITEM_URL, subExpand])⟩

/-- Claim C10: a present but empty item (no fields at all) is falsy for the
`if item:` guard, so it contributes no child urls — exactly like an absent
item — while still occupying its own position in the returned batch. -/
theorem claim_C10 {f : Url → Except Err (Option Item)} {b : Int}
    {urls : List Url} {items out : List (Option Item)} {i : Nat} {it : Item}
    (hg : gather f urls = Except.ok items)
    (h1 : i < items.length) (hit : items.get ⟨i, h1⟩ = some it)
    (hkids : it.kids = none) (hsubm : it.submitted = none)
    (hoth : it.others = 0)
    (h : async_fetch_urls f b urls = Except.ok out) :
    childUrls (some it) = [] ∧ childUrls (some it) = childUrls none ∧
      ∃ h2 : i < out.length, out.get ⟨i, h2⟩ = some it := by
  have hcu : childUrls (some it) = [] := by
    simp [childUrls, Item.truthy, hkids, hsubm, hoth]
  obtain ⟨items2, newItems, hg2, rfl⟩ := async_fetch_urls_ok_split h
  rw [hg] at hg2
  injection hg2 with hsame
  subst hsame
  have h2 : i < (items ++ newItems).length := by
    rw [List.length_append]
    omega
  have hget : (items ++ newItems).get ⟨i, h2⟩ = items.get ⟨i, h1⟩ := by
    rw [List.get_eq_getElem, List.get_eq_getElem, List.getElem_append_left]
  exact ⟨hcu, hcu.trans rfl, h2, by rw [hget, hit]⟩

/-- Witness for claim C10: url 8 holds an empty dict in the demo store. -/
theorem claim_C10_witness :
    gather demoFetch [Url.item 8] = Except.ok [some ⟨none, none, 0⟩] ∧
      async_fetch_urls demoFetch 1 [Url.item 8] =
        Except.ok [some ⟨none, none, 0⟩] ∧
      (childUrls (some ⟨none, none, 0⟩) = [] ∧
        childUrls (some ⟨none, none, 0⟩) = childUrls none ∧
        ∃ h2 : 0 < ([some ⟨none, none, 0⟩] : List (Option Item)).length,
          ([some ⟨none, none, 0⟩] : List (Option Item)).get ⟨0, h2⟩ =
            some ⟨none, none, 0⟩) :=
  ⟨rfl,
   by simp [async_fetch_urls, newItemsLoop, gather, demoFetch, demoG,
     childUrls, Item.truthy, Item.childIds, pyOrList, ITEM_URL, subExpand],
   @claim_C10 demoFetch 1 [Url.item 8] [some ⟨none, none, 0⟩]
    [some ⟨none, none, 0⟩] 0 ⟨none, none, 0⟩ rfl (by norm_num) rfl rfl rfl rfl
    (by simp [async_fetch_urls, newItemsLoop, gather, demoFetch, demoG,
      childUrls, Item.truthy, Item.childIds, pyOrList, ITEM_URL, subExpand])⟩

/-- Claim C1 is false on the code: with items 1 and 2 at the top level,
where item 1 has child 3, item 2 has child 4 and item 3 has child 5, budget 2
returns the depth-2 descendant of item 1 (item 5) BEFORE the depth-1 child of
item 2 (item 4) — the code recurses per parent instead of concatenating the
whole level's children into one next-level sequence, so strict level order
fails. -/
theorem claim_C1_counterexample :
    async_fetch_urls demoFetch 2 [Url.item 1, Url.item 2] =
        Except.ok [some ⟨some [3], none, 1⟩, some ⟨some [4], none, 1⟩,
          some ⟨some [5], none, 1⟩, some ⟨none, none, 5⟩,
          some ⟨none, none, 4⟩] ∧
      async_fetch_urls demoFetch 2 [Url.item 1, Url.item 2] ≠
        Except.ok [some ⟨some [3], none, 1⟩, some ⟨some [4], none, 1⟩,
          some ⟨some [5], none, 1⟩, some ⟨none, none, 4⟩,
          some ⟨none, none, 5⟩] := by
  constructor
  · simp [async_fetch_urls, newItemsLoop, gather, demoFetch, demoG,
      childUrls, Item.truthy, Item.childIds, pyOrList, ITEM_URL, subExpand]
  · simp [async_fetch_urls, newItemsLoop, gather, demoFetch, demoG,
      childUrls, Item.truthy, Item.childIds, pyOrList, ITEM_URL, subExpand]

/-- Claim C1 (amended): with a positive budget, `expand` performs one
recursive expansion per parent item of the batch — in batch order, each with
budget − 1 on that parent's own child urls — and returns the batch followed
by the concatenation of the per-parent expansions; an earlier parent's whole
(depth-interleaving) expansion precedes a later parent's, so the output is
depth-first per parent, not strict level order. -/
theorem claim_C1 {f : Url → Except Err (Option Item)} {b : Int}
    {urls : List Url} {items : List (Option Item)}
    {subs : List (List (Option Item))} (hb : 0 < b)
    (hg : gather f urls = Except.ok items)
    (hsubs : List.Forall₂
      (fun it sub => subExpand f (b - 1) it = Except.ok sub) items subs) :
    async_fetch_urls f b urls = Except.ok (items ++ subs.flatten) := by
  rw [async_fetch_urls_pos_ok hb hg, newItemsLoop_ok_iff.mpr ⟨subs, hsubs, rfl⟩]

/-- Witness for the amended claim C1 at the demo tree: parent 1's expansion
`[item 3, item 5]` is appended whole before parent 2's expansion
`[item 4]`. -/
theorem claim_C1_witness :
    (0 : Int) < 2 ∧
      gather demoFetch [Url.item 1, Url.item 2] =
        Except.ok [some ⟨some [3], none, 1⟩, some ⟨some [4], none, 1⟩] ∧
      async_fetch_urls demoFetch 2 [Url.item 1, Url.item 2] =
        Except.ok ([some ⟨some [3], none, 1⟩, some ⟨some [4], none, 1⟩] ++
          ([[some ⟨some [5], none, 1⟩, some ⟨none, none, 5⟩],
            [some ⟨none, none, 4⟩]] :
              List (List (Option Item))).flatten) :=
  ⟨by norm_num, rfl,
   @claim_C1 demoFetch 2 [Url.item 1, Url.item 2]
    [some ⟨some [3], none, 1⟩, some ⟨some [4], none, 1⟩]
    [[some ⟨some [5], none, 1⟩, some ⟨none, none, 5⟩],
      [some ⟨none, none, 4⟩]]
    (by norm_num) rfl
    (by
      refine List.Forall₂.cons ?_ (List.Forall₂.cons ?_ List.Forall₂.nil) <;>
        simp [async_fetch_urls, newItemsLoop, gather, demoFetch, demoG,
          childUrls, Item.truthy, Item.childIds, pyOrList, ITEM_URL,
          subExpand])⟩

/-- Claim C7: duplicate identifiers are not deduplicated — with a positive
budget each occurrence gets its own batch entry and its own recursive
expansion: the batch and the per-parent expansion list are as long as the
input, and equal input positions carry equal entries, each contributing its
own copy to the output. -/
theorem claim_C7 {f : Url → Except Err (Option Item)} {b : Int}
    {urls : List Url} {items : List (Option Item)}
    {subs : List (List (Option Item))} {i j : Nat} (hb : 0 < b)
    (hg : gather f urls = Except.ok items)
    (hsubs : List.Forall₂
      (fun it sub => subExpand f (b - 1) it = Except.ok sub) items subs)
    (h1 : i < urls.length) (h2 : j < urls.length) (_hne : i ≠ j)
    (hdup : urls.get ⟨i, h1⟩ = urls.get ⟨j, h2⟩) :
    async_fetch_urls f b urls = Except.ok (items ++ subs.flatten) ∧
      items.length = urls.length ∧ subs.length = urls.length ∧
      (∃ (hi : i < items.length) (hj : j < items.length),
        items.get ⟨i, hi⟩ = items.get ⟨j, hj⟩) ∧
      (∃ (hi : i < subs.length) (hj : j < subs.length),
        subs.get ⟨i, hi⟩ = subs.get ⟨j, hj⟩) := by
  have hexp : async_fetch_urls f b urls = Except.ok (items ++ subs.flatten) := by
    rw [async_fetch_urls_pos_ok hb hg, newItemsLoop_ok_iff.mpr ⟨subs, hsubs, rfl⟩]
  have hlen : items.length = urls.length := gather_ok_length hg
  have hlen2 : items.length = subs.length := hsubs.length_eq
  have h1i : i < items.length := by omega
  have h2i : j < items.length := by omega
  have h1s : i < subs.length := by omega
  have h2s : j < subs.length := by omega
  have e1 := gather_ok_get hg h1 h1i
  have e2 := gather_ok_get hg h2 h2i
  rw [hdup, e2] at e1
  injection e1 with hitem
  have s1 := hsubs.get h1i h1s
  have s2 := hsubs.get h2i h2s
  rw [hitem] at s2
  rw [s1] at s2
  injection s2 with hsubeq
  exact ⟨hexp, hlen, by omega, ⟨h1i, h2i, hitem.symm⟩, ⟨h1s, h2s, hsubeq⟩⟩

/-- Witness for claim C7: the duplicated url of item 1 is fetched and
expanded twice, once per occurrence. -/
theorem claim_C7_witness :
    async_fetch_urls demoFetch 1 [Url.item 1, Url.item 1] =
        Except.ok ([some ⟨some [3], none, 1⟩, some ⟨some [3], none, 1⟩] ++
          ([[some ⟨some [5], none, 1⟩], [some ⟨some [5], none, 1⟩]] :
            List (List (Option Item))).flatten) ∧
      ([some ⟨some [3], none, 1⟩, some ⟨some [3], none, 1⟩] :
        List (Option Item)).length = [Url.item 1, Url.item 1].length ∧
      ([[some ⟨some [5], none, 1⟩], [some ⟨some [5], none, 1⟩]] :
        List (List (Option Item))).length = [Url.item 1, Url.item 1].length :=
  have h := @claim_C7 demoFetch 1 [Url.item 1, Url.item 1]
    [some ⟨some [3], none, 1⟩, some ⟨some [3], none, 1⟩]
    [[some ⟨some [5], none, 1⟩], [some ⟨some [5], none, 1⟩]] 0 1
    (by norm_num) rfl
    (by
      refine List.Forall₂.cons ?_ (List.Forall₂.cons ?_ List.Forall₂.nil) <;>
        simp [async_fetch_urls, newItemsLoop, gather, demoFetch, demoG,
          childUrls, Item.truthy, Item.childIds, pyOrList, ITEM_URL,
          subExpand])
    (by norm_num) (by norm_num) (by norm_num) rfl
  ⟨h.1, h.2.1, h.2.2.1⟩

/-- Claim C3: the child-identifier sequence is the first non-empty of the
kids and submitted fields (empty when neither is present or non-empty), and
an item with an empty kids list but non-empty submitted list is expanded
through submitted. -/
theorem claim_C3 :
    (∀ it : Item, it.childIds = specChildIds it) ∧
      Item.childIds ⟨some [], some [7], 1⟩ = [7] ∧
      async_fetch_urls demoFetch 1 [Url.item 6] =
        Except.ok [some ⟨some [], some [7], 1⟩, some ⟨none, none, 7⟩] := by
  refine ⟨?_, rfl, ?_⟩
  · intro it
    rcases it with ⟨k, s, o⟩
    rcases k with _ | k
    · rcases s with _ | s
      · rfl
      · rcases s with _ | ⟨c, m⟩ <;> rfl
    · rcases k with _ | ⟨a, l⟩
      · rcases s with _ | s
        · rfl
        · rcases s with _ | ⟨c, m⟩ <;> rfl
      · rfl
  · simp [async_fetch_urls, newItemsLoop, gather, demoFetch, demoG,
      childUrls, Item.truthy, Item.childIds, pyOrList, ITEM_URL, subExpand]

/-- Claim C2: if the one failing fetch of the run is for a url the expansion
reaches (a member of the error-free run's fetched-url tree), the top-level
call returns exactly that error — no partial result at any recursion
level. -/
theorem claim_C2 {g : Url → Option Item} {u : Url} {e : Err}
    {f : Url → Except Err (Option Item)}
    (hf : ∀ v, f v = if v = u then Except.error e else Except.ok (g v))
    {b : Int} {urls : List Url} (hu : u ∈ fetchedUrls g b urls) :
    async_fetch_urls f b urls = Except.error e := by
  have main : ∀ (b : Int) (urls : List Url),
      u ∈ fetchedUrls g b urls → async_fetch_urls f b urls = Except.error e := by
    refine fetchedUrls.induct g
      (fun b urls =>
        u ∈ fetchedUrls g b urls → async_fetch_urls f b urls = Except.error e)
      (fun b items =>
        u ∈ fetchedChildrenUrls g b items →
          newItemsLoop f b items = Except.error e)
      ?_ ?_ ?_
    · intro b urls ih hu2
      by_cases hm : u ∈ urls
      · exact async_fetch_urls_gather_error (gather_error_of_mem hf hm)
      · by_cases hb : 0 < b
        · rw [fetchedUrls_pos hb] at hu2
          rcases List.mem_append.mp hu2 with hin | hin
          · exact absurd hin hm
          · have hg : gather f urls = Except.ok (urls.map g) :=
              gather_map fun v hv => by
                have hvu : v ≠ u := fun hvu => hm (hvu ▸ hv)
                rw [hf v, if_neg hvu]
            rw [async_fetch_urls_pos_ok hb hg, ih hb hin]
        · rw [fetchedUrls_nonpos hb] at hu2
          exact absurd hu2 hm
    · intro b hu2
      rw [fetchedChildrenUrls_nil] at hu2
      cases hu2
    · intro b item rest ih1 ih2 hu2
      rw [fetchedChildrenUrls_cons] at hu2
      rcases List.mem_append.mp hu2 with hin | hin
      · by_cases hx : (childUrls item).isEmpty = true
        · rw [if_pos hx] at hin
          cases hin
        · rw [if_neg hx] at hin
          have hsubE : subExpand f b item = Except.error e := by
            rw [subExpand, if_neg hx]
            exact ih1 hin
          rw [newItemsLoop_cons, hsubE]
      · have hrest : newItemsLoop f b rest = Except.error e := ih2 hin
        rw [newItemsLoop_cons]
        cases hsub : subExpand f b item with
        | error e2 =>
          have he2 : e2 = e := by
            by_cases hx : (childUrls item).isEmpty = true
            · rw [subExpand, if_pos hx] at hsub
              exact absurd hsub (by simp)
            · rw [subExpand, if_neg hx] at hsub
              exact async_fetch_urls_error_unique hf hsub
          rw [he2]
        | ok sub =>
          rw [hrest]
  exact main b urls hu

/-- Witness for claim C2: item 5 sits at depth 2 of the demo tree, and its
transport error surfaces as the result of the whole depth-2 expansion. -/
theorem claim_C2_witness :
    demoFailFetch (Url.item 5) = Except.error Err.transportError ∧
      Url.item 5 ∈ fetchedUrls demoG 2 [Url.item 1, Url.item 2] ∧
      async_fetch_urls demoFailFetch 2 [Url.item 1, Url.item 2] =
        Except.error Err.transportError :=
  ⟨rfl,
   by simp [fetchedUrls, fetchedChildrenUrls, demoG, childUrls, Item.truthy,
     Item.childIds, pyOrList, ITEM_URL],
   @claim_C2 demoG (Url.item 5) Err.transportError demoFailFetch
    (fun v => rfl) 2 [Url.item 1, Url.item 2]
    (by simp [fetchedUrls, fetchedChildrenUrls, demoG, childUrls, Item.truthy,
      Item.childIds, pyOrList, ITEM_URL])⟩

end HN
